import Mathlib

/-!
# Verification of the CameraTransform projective/geodesic transform core

Shallow embedding of `CameraTransform/CameraTransform.py` over the real
numbers.  Matrices are `Matrix (Fin m) (Fin n) ℝ`, points are `Fin n → ℝ`.
The numpy array operations are embedded per point (per column of the
`[kxN]` arrays the Python code processes); `np.linalg.solve` on a 3x3
system is embedded by the explicit Cramer formulas that characterise the
unique solution of a non-singular system.  Python `None`-able attributes
are embedded as `Option ℝ`; Python float truthiness (`if self.heading:`)
is `pyTruthy` (false exactly for `None` and `0.0`).
-/

namespace CameraTransform

/-- Mean earth radius, the class constant `R_earth = 6371e3`. -/
def R_earth : ℝ := 6371000

/-- Python truthiness of an optional float: `None` and `0.0` are falsy. -/
@[reducible] def pyTruthy (o : Option ℝ) : Prop := o.getD 0 ≠ 0

/-- Resolution of a Python keyword argument defaulting to a stored
attribute (`if arg is None: arg = self.field`); reading the attribute when
both are `None` would be a Python `TypeError`, embedded as the junk value
`0`. -/
def pyArg (arg field : Option ℝ) : ℝ :=
  match arg with
  | none => field.getD 0
  | some v => v

/-- Explicit 3x3 determinant (cofactor expansion along the first row). -/
def det3 (M : Matrix (Fin 3) (Fin 3) ℝ) : ℝ :=
  M 0 0 * (M 1 1 * M 2 2 - M 1 2 * M 2 1)
    - M 0 1 * (M 1 0 * M 2 2 - M 1 2 * M 2 0)
    + M 0 2 * (M 1 0 * M 2 1 - M 1 1 * M 2 0)

/-- The value `np.linalg.solve(M, b)` returns for a non-singular 3x3
system, given componentwise by Cramer's rule. -/
noncomputable def solve3 (M : Matrix (Fin 3) (Fin 3) ℝ) (b : Fin 3 → ℝ) :
    Fin 3 → ℝ :=
  ![det3 (Matrix.of ![![b 0, M 0 1, M 0 2],
                      ![b 1, M 1 1, M 1 2],
                      ![b 2, M 2 1, M 2 2]]) / det3 M,
    det3 (Matrix.of ![![M 0 0, b 0, M 0 2],
                      ![M 1 0, b 1, M 1 2],
                      ![M 2 0, b 2, M 2 2]]) / det3 M,
    det3 (Matrix.of ![![M 0 0, M 0 1, b 0],
                      ![M 1 0, M 1 1, b 1],
                      ![M 2 0, M 2 1, b 2]]) / det3 M]

/-- Determinant of an explicit 3x3 matrix literal. -/
theorem det3_explicit (a b c d e f g h i : ℝ) :
    det3 (Matrix.of ![![a, b, c], ![d, e, f], ![g, h, i]]) =
      a * (e * i - f * h) - b * (d * i - f * g) + c * (d * h - e * g) := by
  simp [det3]

/-- Expansion of a 3x3 matrix-vector product. -/
theorem mulVec3_apply (M : Matrix (Fin 3) (Fin 3) ℝ) (w : Fin 3 → ℝ)
    (i : Fin 3) : M.mulVec w i = M i 0 * w 0 + M i 1 * w 1 + M i 2 * w 2 := by
  simp [Matrix.mulVec, Matrix.dotProduct, Fin.sum_univ_three]

/-- Expansion of a 3x4 matrix-vector product. -/
theorem mulVec4_apply (M : Matrix (Fin 3) (Fin 4) ℝ) (w : Fin 4 → ℝ)
    (i : Fin 3) :
    M.mulVec w i = M i 0 * w 0 + M i 1 * w 1 + M i 2 * w 2 + M i 3 * w 3 := by
  simp [Matrix.mulVec, Matrix.dotProduct, Fin.sum_univ_four]

/-- On a non-singular system, `solve3` recovers the vector: Cramer's
rule is a left inverse of `M *ᵥ ·`. -/
theorem solve3_mulVec (M : Matrix (Fin 3) (Fin 3) ℝ) (v : Fin 3 → ℝ)
    (hM : det3 M ≠ 0) : solve3 M (M.mulVec v) = v := by
  funext j
  fin_cases j
  · show det3 (Matrix.of ![![M.mulVec v 0, M 0 1, M 0 2],
        ![M.mulVec v 1, M 1 1, M 1 2],
        ![M.mulVec v 2, M 2 1, M 2 2]]) / det3 M = v 0
    rw [mulVec3_apply, mulVec3_apply, mulVec3_apply, det3_explicit]
    rw [show det3 M = M 0 0 * (M 1 1 * M 2 2 - M 1 2 * M 2 1)
        - M 0 1 * (M 1 0 * M 2 2 - M 1 2 * M 2 0)
        + M 0 2 * (M 1 0 * M 2 1 - M 1 1 * M 2 0) from rfl] at hM ⊢
    field_simp
    ring
  · show det3 (Matrix.of ![![M 0 0, M.mulVec v 0, M 0 2],
        ![M 1 0, M.mulVec v 1, M 1 2],
        ![M 2 0, M.mulVec v 2, M 2 2]]) / det3 M = v 1
    rw [mulVec3_apply, mulVec3_apply, mulVec3_apply, det3_explicit]
    rw [show det3 M = M 0 0 * (M 1 1 * M 2 2 - M 1 2 * M 2 1)
        - M 0 1 * (M 1 0 * M 2 2 - M 1 2 * M 2 0)
        + M 0 2 * (M 1 0 * M 2 1 - M 1 1 * M 2 0) from rfl] at hM ⊢
    field_simp
    ring
  · show det3 (Matrix.of ![![M 0 0, M 0 1, M.mulVec v 0],
        ![M 1 0, M 1 1, M.mulVec v 1],
        ![M 2 0, M 2 1, M.mulVec v 2]]) / det3 M = v 2
    rw [mulVec3_apply, mulVec3_apply, mulVec3_apply, det3_explicit]
    rw [show det3 M = M 0 0 * (M 1 1 * M 2 2 - M 1 2 * M 2 1)
        - M 0 1 * (M 1 0 * M 2 2 - M 1 2 * M 2 0)
        + M 0 2 * (M 1 0 * M 2 1 - M 1 1 * M 2 0) from rfl] at hM ⊢
    field_simp
    ring

/-- Homogenisation of a 3D point (`np.vstack((x, np.ones(...)))`). -/
def hom4 (p : Fin 3 → ℝ) : Fin 4 → ℝ := ![p 0, p 1, p 2, 1]

/-- Method `transWorldToCam`, per world point: homogenise, multiply with the
camera matrix `C`, perspective-divide by the third component. -/
noncomputable def transWorldToCam (C : Matrix (Fin 3) (Fin 4) ℝ)
    (p : Fin 3 → ℝ) : Fin 2 → ℝ :=
  let X := C.mulVec (hom4 p)
  ![X 0 / X 2, X 1 / X 2]

theorem transWorldToCam_zero (C : Matrix (Fin 3) (Fin 4) ℝ) (p : Fin 3 → ℝ) :
    transWorldToCam C p 0 = C.mulVec (hom4 p) 0 / C.mulVec (hom4 p) 2 := rfl

theorem transWorldToCam_one (C : Matrix (Fin 3) (Fin 4) ℝ) (p : Fin 3 → ℝ) :
    transWorldToCam C p 1 = C.mulVec (hom4 p) 1 / C.mulVec (hom4 p) 2 := rfl

/-- The reduced 3x3 matrix of `_transCamToWorldFixedDimension`: column
`dim` of the camera matrix is collapsed with the translation column
(`P[:, dimension] = P[:, dimension] * fixed + P[:, 3]; P = P[:, :3]`). -/
def reducedP (C : Matrix (Fin 3) (Fin 4) ℝ) (fixed : ℝ) (dim : Fin 3) :
    Matrix (Fin 3) (Fin 3) ℝ :=
  Matrix.of fun i j =>
    if j = dim then C i (Fin.castSucc dim) * fixed + C i 3
    else C i (Fin.castSucc j)

theorem reducedP_z_zero (C : Matrix (Fin 3) (Fin 4) ℝ) (f : ℝ) (i : Fin 3) :
    reducedP C f 2 i 0 = C i 0 := by
  simp [reducedP, show Fin.castSucc (0 : Fin 3) = (0 : Fin 4) from rfl]

theorem reducedP_z_one (C : Matrix (Fin 3) (Fin 4) ℝ) (f : ℝ) (i : Fin 3) :
    reducedP C f 2 i 1 = C i 1 := by
  simp [reducedP, show Fin.castSucc (1 : Fin 3) = (1 : Fin 4) from rfl]

theorem reducedP_z_two (C : Matrix (Fin 3) (Fin 4) ℝ) (f : ℝ) (i : Fin 3) :
    reducedP C f 2 i 2 = C i 2 * f + C i 3 := by
  simp [reducedP, show Fin.castSucc (2 : Fin 3) = (2 : Fin 4) from rfl]

/-- Method `_transCamToWorldFixedDimension`, per camera point: homogenise, solve
the reduced linear system, rescale by the entry standing in for the fixed
dimension, overwrite that entry with the fixed value. -/
noncomputable def transCamToWorldFixedDimension (C : Matrix (Fin 3) (Fin 4) ℝ)
    (x : Fin 2 → ℝ) (fixed : ℝ) (dim : Fin 3) : Fin 3 → ℝ :=
  let xh : Fin 3 → ℝ := ![x 0, x 1, 1]
  let X := solve3 (reducedP C fixed dim) xh
  Function.update (fun i => X i / X dim) dim fixed

/-- C1: for every camera matrix and 3D world point with nonzero depth,
whenever the z-reduced back-projection system is non-degenerate,
back-projecting the forward projection with the Z axis fixed to the
point's z value recovers the point exactly
(`transCamToWorld(transWorldToCam(p), Z=p.z) = p`). -/
theorem roundtrip_world_cam_world (C : Matrix (Fin 3) (Fin 4) ℝ)
    (p : Fin 3 → ℝ) (hd : C.mulVec (hom4 p) 2 ≠ 0)
    (hdet : det3 (reducedP C (p 2) 2) ≠ 0) :
    transCamToWorldFixedDimension C (transWorldToCam C p) (p 2) 2 = p := by
  have hCp : ∀ i : Fin 3, C.mulVec (hom4 p) i =
      C i 0 * p 0 + C i 1 * p 1 + C i 2 * p 2 + C i 3 := by
    intro i
    rw [mulVec4_apply]
    simp [hom4]
  have hS : C 2 0 * p 0 + C 2 1 * p 1 + C 2 2 * p 2 + C 2 3 ≠ 0 := by
    rw [← hCp 2]
    exact hd
  -- the rescaled original point solves the reduced system at the
  -- homogenised image point
  have hw : (reducedP C (p 2) 2).mulVec
      ![p 0 / C.mulVec (hom4 p) 2, p 1 / C.mulVec (hom4 p) 2,
        1 / C.mulVec (hom4 p) 2] =
      ![transWorldToCam C p 0, transWorldToCam C p 1, 1] := by
    funext i
    fin_cases i
    · show (reducedP C (p 2) 2).mulVec
          ![p 0 / C.mulVec (hom4 p) 2, p 1 / C.mulVec (hom4 p) 2,
            1 / C.mulVec (hom4 p) 2] 0 = transWorldToCam C p 0
      rw [mulVec3_apply, reducedP_z_zero, reducedP_z_one, reducedP_z_two,
        transWorldToCam_zero]
      show C 0 0 * (p 0 / C.mulVec (hom4 p) 2) +
          C 0 1 * (p 1 / C.mulVec (hom4 p) 2) +
          (C 0 2 * p 2 + C 0 3) * (1 / C.mulVec (hom4 p) 2) =
          C.mulVec (hom4 p) 0 / C.mulVec (hom4 p) 2
      rw [hCp 0, hCp 2]
      field_simp
      ring
    · show (reducedP C (p 2) 2).mulVec
          ![p 0 / C.mulVec (hom4 p) 2, p 1 / C.mulVec (hom4 p) 2,
            1 / C.mulVec (hom4 p) 2] 1 = transWorldToCam C p 1
      rw [mulVec3_apply, reducedP_z_zero, reducedP_z_one, reducedP_z_two,
        transWorldToCam_one]
      show C 1 0 * (p 0 / C.mulVec (hom4 p) 2) +
          C 1 1 * (p 1 / C.mulVec (hom4 p) 2) +
          (C 1 2 * p 2 + C 1 3) * (1 / C.mulVec (hom4 p) 2) =
          C.mulVec (hom4 p) 1 / C.mulVec (hom4 p) 2
      rw [hCp 1, hCp 2]
      field_simp
      ring
    · show (reducedP C (p 2) 2).mulVec
          ![p 0 / C.mulVec (hom4 p) 2, p 1 / C.mulVec (hom4 p) 2,
            1 / C.mulVec (hom4 p) 2] 2 = 1
      rw [mulVec3_apply, reducedP_z_zero, reducedP_z_one, reducedP_z_two,
        hCp 2]
      field_simp
      ring
  -- hence the linear solve recovers the rescaled point
  have hX : solve3 (reducedP C (p 2) 2)
      ![transWorldToCam C p 0, transWorldToCam C p 1, 1] =
      ![p 0 / C.mulVec (hom4 p) 2, p 1 / C.mulVec (hom4 p) 2,
        1 / C.mulVec (hom4 p) 2] := by
    rw [← hw]
    exact solve3_mulVec _ _ hdet
  show Function.update
      (fun i => solve3 (reducedP C (p 2) 2)
          ![transWorldToCam C p 0, transWorldToCam C p 1, 1] i /
        solve3 (reducedP C (p 2) 2)
          ![transWorldToCam C p 0, transWorldToCam C p 1, 1] 2) 2 (p 2) = p
  simp only [hX]
  funext i
  fin_cases i
  · show (![p 0 / C.mulVec (hom4 p) 2, p 1 / C.mulVec (hom4 p) 2,
        1 / C.mulVec (hom4 p) 2] : Fin 3 → ℝ) 0 /
        (![p 0 / C.mulVec (hom4 p) 2, p 1 / C.mulVec (hom4 p) 2,
        1 / C.mulVec (hom4 p) 2] : Fin 3 → ℝ) 2 = p 0
    simp only [Matrix.cons_val_zero, Matrix.cons_val_two, Matrix.tail_cons,
      Matrix.head_cons]
    field_simp
  · show (![p 0 / C.mulVec (hom4 p) 2, p 1 / C.mulVec (hom4 p) 2,
        1 / C.mulVec (hom4 p) 2] : Fin 3 → ℝ) 1 /
        (![p 0 / C.mulVec (hom4 p) 2, p 1 / C.mulVec (hom4 p) 2,
        1 / C.mulVec (hom4 p) 2] : Fin 3 → ℝ) 2 = p 1
    simp only [Matrix.cons_val_one, Matrix.head_cons, Matrix.cons_val_two,
      Matrix.tail_cons]
    field_simp
  · show Function.update
        (fun i => (![p 0 / C.mulVec (hom4 p) 2, p 1 / C.mulVec (hom4 p) 2,
            1 / C.mulVec (hom4 p) 2] : Fin 3 → ℝ) i /
          (![p 0 / C.mulVec (hom4 p) 2, p 1 / C.mulVec (hom4 p) 2,
            1 / C.mulVec (hom4 p) 2] : Fin 3 → ℝ) 2) 2 (p 2) 2 = p 2
    simp

/-- Concrete camera matrix used for the C1 witness. -/
def witnessC : Matrix (Fin 3) (Fin 4) ℝ :=
  Matrix.of ![![1, 0, 0, 0], ![0, 1, 0, 0], ![0, 0, 1, 0]]

/-- Witness for C1: a concrete camera matrix and point satisfying both
non-degeneracy hypotheses, round-tripping exactly. -/
theorem roundtrip_world_cam_world_witness :
    witnessC.mulVec (hom4 ![1, 2, 3]) 2 ≠ 0 ∧
    det3 (reducedP witnessC ((![(1 : ℝ), 2, 3]) 2) 2) ≠ 0 ∧
    transCamToWorldFixedDimension witnessC
      (transWorldToCam witnessC ![1, 2, 3]) ((![(1 : ℝ), 2, 3]) 2) 2 =
      ![1, 2, 3] := by
  have h1 : witnessC.mulVec (hom4 ![1, 2, 3]) 2 ≠ 0 := by
    rw [mulVec4_apply, show witnessC 2 0 = 0 from rfl,
      show witnessC 2 1 = 0 from rfl, show witnessC 2 2 = 1 from rfl,
      show witnessC 2 3 = 0 from rfl, show hom4 ![1, 2, 3] 2 = 3 from rfl]
    norm_num
  have h2 : det3 (reducedP witnessC ((![(1 : ℝ), 2, 3]) 2) 2) ≠ 0 := by
    show det3 (reducedP witnessC 3 2) ≠ 0
    simp only [det3, reducedP_z_zero, reducedP_z_one, reducedP_z_two]
    rw [show witnessC 0 0 = 1 from rfl, show witnessC 0 1 = 0 from rfl,
      show witnessC 0 2 = 0 from rfl, show witnessC 0 3 = 0 from rfl,
      show witnessC 1 0 = 0 from rfl, show witnessC 1 1 = 1 from rfl,
      show witnessC 1 2 = 0 from rfl, show witnessC 1 3 = 0 from rfl,
      show witnessC 2 0 = 0 from rfl, show witnessC 2 1 = 0 from rfl,
      show witnessC 2 2 = 1 from rfl, show witnessC 2 3 = 0 from rfl]
    norm_num
  exact ⟨h1, h2, roundtrip_world_cam_world _ _ h1 h2⟩


/-- The mutable attribute state of a `CameraTransform` object.  Fields
whose Python class-level default is `None` are `Option ℝ` initialised to
`none`; `heading`, `pos_x`, `pos_y` default to `0`.  Derived matrix caches
(`C1`, `t`, rotation blocks, `R`, `C`) are plain values (a Python read
before initialisation would raise; the claims only exercise initialised
caches). -/
structure CamState where
  f : Option ℝ := none
  sensor_width : Option ℝ := none
  sensor_height : Option ℝ := none
  fov_h_angle : Option ℝ := none
  fov_v_angle : Option ℝ := none
  im_width : Option ℝ := none
  im_height : Option ℝ := none
  f_normed : ℝ := 0
  C1 : Matrix (Fin 3) (Fin 4) ℝ := 0
  height : Option ℝ := none
  roll : Option ℝ := none
  heading : Option ℝ := some 0
  tilt : Option ℝ := none
  tan_tilt : Option ℝ := none
  pos_x : Option ℝ := some 0
  pos_y : Option ℝ := some 0
  t : Fin 3 → ℝ := 0
  R_tilt : Matrix (Fin 3) (Fin 3) ℝ := 0
  R_roll : Matrix (Fin 3) (Fin 3) ℝ := 0
  R_head : Matrix (Fin 3) (Fin 3) ℝ := 0
  R : Matrix (Fin 4) (Fin 4) ℝ := 0
  C : Matrix (Fin 3) (Fin 4) ℝ := 0

/-- The invalid-input message of `transCamToWorld`. -/
def invalidAxisMsg : String := "Exactly one of X, Y, Z has to be given."

/-- The error numpy's `linalg.solve` raises on a singular system. -/
def singularMsg : String := "Singular matrix"

/-- Number of supplied (non-`None`) fixed-axis arguments. -/
def suppliedCount (X Y Z : Option ℝ) : ℕ :=
  (cond X.isSome 1 0) + (cond Y.isSome 1 0) + (cond Z.isSome 1 0)

open Classical in
/-- Method `transCamToWorld` (scalar fixed value, per camera point): raise
`ValueError` unless the number of `None`s among X, Y, Z is exactly two,
select the fixed value and dimension in the order X, Y, Z, and run the
fixed-dimension back-projection (numpy raising `LinAlgError` on a
singular reduced system). -/
noncomputable def transCamToWorld (C : Matrix (Fin 3) (Fin 4) ℝ)
    (x : Fin 2 → ℝ) (X Y Z : Option ℝ) : Except String (Fin 3 → ℝ) :=
  if (cond X.isNone 1 0) + (cond Y.isNone 1 0) + (cond Z.isNone 1 0) ≠ 2 then
    Except.error invalidAxisMsg
  else
    let fd : ℝ × Fin 3 :=
      if X.isSome then (X.getD 0, 0)
      else if Y.isSome then (Y.getD 0, 1)
      else (Z.getD 0, 2)
    if det3 (reducedP C fd.1 fd.2) = 0 then Except.error singularMsg
    else Except.ok (transCamToWorldFixedDimension C x fd.1 fd.2)

/-- C2: `transCamToWorld` reports the invalid-input error exactly when the
number of supplied fixed-axis arguments among X, Y, Z is not one; when
exactly one is supplied no such error is raised and the computation
proceeds (to the solver, whose own degeneracy error is distinct). -/
theorem transCamToWorld_invalid_iff (C : Matrix (Fin 3) (Fin 4) ℝ)
    (x : Fin 2 → ℝ) (X Y Z : Option ℝ) :
    transCamToWorld C x X Y Z = Except.error invalidAxisMsg ↔
      suppliedCount X Y Z ≠ 1 := by
  have hmsg : singularMsg ≠ invalidAxisMsg := by decide
  cases X <;> cases Y <;> cases Z <;>
    · simp only [transCamToWorld, suppliedCount, Option.isSome_none,
        Option.isSome_some, Option.isNone_none, Option.isNone_some,
        cond_true, cond_false]
      norm_num
      try split_ifs <;> simp_all [hmsg]

/-- Python `dict` key order of the `_fit` estimates dictionary. -/
def fitKeys : List String :=
  ["height", "tilt", "roll", "heading", "pos_x", "pos_y"]

/-- The free-parameter list `_fit` builds: start from the estimate keys
and remove `roll`, `heading`, `height`, `pos_x`, `pos_y` (in that order)
when the corresponding attribute is not `None`.  `tilt` is never
removed. -/
def fitParameters (st : CamState) : List String :=
  let ps0 := fitKeys
  let ps1 := if st.roll.isSome then ps0.erase "roll" else ps0
  let ps2 := if st.heading.isSome then ps1.erase "heading" else ps1
  let ps3 := if st.height.isSome then ps2.erase "height" else ps2
  let ps4 := if st.pos_x.isSome then ps3.erase "pos_x" else ps3
  let ps5 := if st.pos_y.isSome then ps4.erase "pos_y" else ps4
  ps5

/-- Whether the pose parameter named `p` is currently fixed (non-null). -/
def isFixedParam (st : CamState) (p : String) : Bool :=
  match p with
  | "height" => st.height.isSome
  | "tilt" => st.tilt.isSome
  | "roll" => st.roll.isSome
  | "heading" => st.heading.isSome
  | "pos_x" => st.pos_x.isSome
  | "pos_y" => st.pos_y.isSome
  | _ => false

/-- A state in which every pose parameter, `tilt` included, is fixed. -/
def fitStateAllFixed : CamState :=
  { height := some 20, tilt := some 85, roll := some 0, heading := some 0,
    pos_x := some 0, pos_y := some 0 }

/-- Counterexample to C3 as stated: with every pose parameter fixed
(`tilt = 85` in particular), `tilt` is nevertheless kept in the
free-parameter list handed to the optimizer. -/
theorem fitParameters_keeps_fixed_tilt :
    isFixedParam fitStateAllFixed "tilt" = true ∧
      "tilt" ∈ fitParameters fitStateAllFixed := by
  constructor
  · rfl
  · decide

/-- C3 (amended): the free-parameter list is the full six-element key list
filtered by removing exactly the fixed (non-null) parameters other than
`tilt`; `tilt` always stays, fixed or not. -/
theorem fitParameters_eq_filter (st : CamState) :
    fitParameters st =
      fitKeys.filter (fun p => p == "tilt" || !(isFixedParam st p)) := by
  rcases st with ⟨f, sw, sh, fh, fv, iw, ih, fn, C1m, h, r, hd, tl, tt, px,
    py, tv, rt, rr, rh, r4, cm⟩
  cases r <;> cases hd <;> cases h <;> cases px <;> cases py <;> rfl

/-- A freshly constructed object state: every field at its class-level
default. -/
def baseState : CamState := {}

/-- The 4x4 rigid transform assembled by
`np.vstack((np.hstack((R3, t)), [0, 0, 0, 1]))`. -/
def rigid4 (R3 : Matrix (Fin 3) (Fin 3) ℝ) (t : Fin 3 → ℝ) :
    Matrix (Fin 4) (Fin 4) ℝ :=
  Matrix.of ![![R3 0 0, R3 0 1, R3 0 2, t 0],
              ![R3 1 0, R3 1 1, R3 1 2, t 1],
              ![R3 2 0, R3 2 1, R3 2 2, t 2],
              ![0, 0, 0, 1]]

open Classical in
/-- Method `_initCameraMatrix`: resolve the height/tilt/roll arguments against
the stored attributes (writing supplied arguments back), convert angles to
radians (an untruthy `roll`/`heading` meaning `0`), override the tilt
angle from `tan_tilt` when that is truthy (writing the tilt attribute
back in degrees), build the translation vector and the three rotation
matrices, rotate the translation by the tilt rotation alone, assemble the
4x4 rotation-translation matrix and compose it with the intrinsic
matrix. -/
noncomputable def initCameraMatrix (st : CamState)
    (height tilt_angle roll_angle : Option ℝ) : CamState :=
  let tilt1 : Option ℝ := match tilt_angle with
    | none => st.tilt
    | some v => some v
  let height1 : Option ℝ := match height with
    | none => st.height
    | some v => some v
  let angle0 : ℝ := pyArg tilt_angle st.tilt * Real.pi / 180
  let roll : ℝ := match roll_angle with
    | none => if pyTruthy st.roll then st.roll.getD 0 * Real.pi / 180 else 0
    | some v => v * Real.pi / 180
  let heading : ℝ :=
    if pyTruthy st.heading then st.heading.getD 0 * Real.pi / 180 else 0
  let angle : ℝ :=
    if pyTruthy st.tan_tilt then
      Real.pi / 2 - Real.arctan (st.tan_tilt.getD 0)
    else angle0
  let tilt2 : Option ℝ :=
    if pyTruthy st.tan_tilt then some (angle * 180 / Real.pi) else tilt1
  let t0 : Fin 3 → ℝ :=
    ![st.pos_x.getD 0, st.pos_y.getD 0, -(pyArg height st.height)]
  let Rt : Matrix (Fin 3) (Fin 3) ℝ :=
    Matrix.of ![![1, 0, 0],
                ![0, Real.cos angle, Real.sin angle],
                ![0, -Real.sin angle, Real.cos angle]]
  let Rr : Matrix (Fin 3) (Fin 3) ℝ :=
    Matrix.of ![![Real.cos roll, Real.sin roll, 0],
                ![-Real.sin roll, Real.cos roll, 0],
                ![0, 0, 1]]
  let Rh : Matrix (Fin 3) (Fin 3) ℝ :=
    Matrix.of ![![Real.cos heading, Real.sin heading, 0],
                ![-Real.sin heading, Real.cos heading, 0],
                ![0, 0, 1]]
  let t1 : Fin 3 → ℝ := Rt.mulVec t0
  let R4 : Matrix (Fin 4) (Fin 4) ℝ := rigid4 (Rr * Rt * Rh) t1
  { st with
      tilt := tilt2
      height := height1
      t := t1
      R_tilt := Rt
      R_roll := Rr
      R_head := Rh
      R := R4
      C := st.C1 * R4 }

/-- C5: whenever the camera matrix is rebuilt, the stored translation is
the vector `[pos_x, pos_y, -height]` rotated by the tilt rotation alone,
the stored 4x4 rigid transform assembles the rotation block
`R_roll * R_tilt * R_head` with that translation column, and the composed
camera matrix is the intrinsic matrix times this rigid transform. -/
theorem initCameraMatrix_composition (st : CamState)
    (height tilt_angle roll_angle : Option ℝ) :
    (initCameraMatrix st height tilt_angle roll_angle).t =
      (initCameraMatrix st height tilt_angle roll_angle).R_tilt.mulVec
        ![st.pos_x.getD 0, st.pos_y.getD 0, -(pyArg height st.height)] ∧
    (initCameraMatrix st height tilt_angle roll_angle).R =
      rigid4 ((initCameraMatrix st height tilt_angle roll_angle).R_roll *
          (initCameraMatrix st height tilt_angle roll_angle).R_tilt *
          (initCameraMatrix st height tilt_angle roll_angle).R_head)
        (initCameraMatrix st height tilt_angle roll_angle).t ∧
    (initCameraMatrix st height tilt_angle roll_angle).C =
      st.C1 * (initCameraMatrix st height tilt_angle roll_angle).R :=
  ⟨rfl, rfl, rfl⟩

/-- C9: when `tan_tilt` is truthy (non-null and nonzero) at rebuild time,
the tilt angle actually used for the tilt rotation is
`pi/2 - arctan(tan_tilt)` radians, and that value, converted to degrees,
is written back into the `tilt` attribute, overriding any supplied or
stored tilt angle. -/
theorem initCameraMatrix_tan_tilt_overrides (st : CamState)
    (height tilt_angle roll_angle : Option ℝ)
    (h : pyTruthy st.tan_tilt) :
    (initCameraMatrix st height tilt_angle roll_angle).tilt =
      some ((Real.pi / 2 - Real.arctan (st.tan_tilt.getD 0)) * 180 /
        Real.pi) ∧
    (initCameraMatrix st height tilt_angle roll_angle).R_tilt =
      Matrix.of
        ![![1, 0, 0],
          ![0, Real.cos (Real.pi / 2 - Real.arctan (st.tan_tilt.getD 0)),
            Real.sin (Real.pi / 2 - Real.arctan (st.tan_tilt.getD 0))],
          ![0, -Real.sin (Real.pi / 2 - Real.arctan (st.tan_tilt.getD 0)),
            Real.cos (Real.pi / 2 - Real.arctan (st.tan_tilt.getD 0))]] := by
  constructor
  · simp only [initCameraMatrix]
    rw [if_pos h, if_pos h]
  · simp only [initCameraMatrix]
    rw [if_pos h]

/-- A state with a truthy `tan_tilt` and a previously stored tilt. -/
def tanTiltState : CamState := { tilt := some 85, tan_tilt := some 1 }

/-- Witness for C9: with `tan_tilt = 1` and both a stored tilt of 85 and a
supplied tilt argument of 30, the rebuilt tilt is
`(pi/2 - arctan 1) * 180 / pi`. -/
theorem initCameraMatrix_tan_tilt_overrides_witness :
    pyTruthy tanTiltState.tan_tilt ∧
    (initCameraMatrix tanTiltState none (some 30) none).tilt =
      some ((Real.pi / 2 - Real.arctan (tanTiltState.tan_tilt.getD 0)) *
        180 / Real.pi) := by
  have h : pyTruthy tanTiltState.tan_tilt := by
    show tanTiltState.tan_tilt.getD 0 ≠ 0
    rw [show tanTiltState.tan_tilt.getD 0 = 1 from rfl]
    norm_num
  exact ⟨h,
    (initCameraMatrix_tan_tilt_overrides tanTiltState none (some 30) none
      h).1⟩

/-- Method `distanceBearing`: Euclidean distance from the camera foot point and
bearing `-arctan(dx/dy)` in degrees. -/
noncomputable def distanceBearing (st : CamState) (pos : Fin 3 → ℝ) :
    ℝ × ℝ :=
  let x := pos 0 - st.pos_x.getD 0
  let y := pos 1 - st.pos_y.getD 0
  (Real.sqrt (x ^ 2 + y ^ 2), -Real.arctan (x / y) * 180 / Real.pi)

/-- The reflection of a world point through the camera foot point
(negation of the horizontal offset). -/
def reflectFootpoint (st : CamState) (pos : Fin 3 → ℝ) : Fin 3 → ℝ :=
  ![2 * st.pos_x.getD 0 - pos 0, 2 * st.pos_y.getD 0 - pos 1, pos 2]

/-- Counterexample to C6 as stated: at the point (1, 1, 0) with the camera
foot point at the origin, the bearings of the point and of its reflection
are equal, hence do not differ by 180 degrees. -/
theorem distanceBearing_reflection_not_180 :
    (distanceBearing baseState (reflectFootpoint baseState ![1, 1, 0])).2 =
      (distanceBearing baseState ![1, 1, 0]).2 ∧
    ¬((distanceBearing baseState
          (reflectFootpoint baseState ![1, 1, 0])).2 =
        (distanceBearing baseState ![1, 1, 0]).2 + 180 ∨
      (distanceBearing baseState
          (reflectFootpoint baseState ![1, 1, 0])).2 =
        (distanceBearing baseState ![1, 1, 0]).2 - 180) := by
  have he : (distanceBearing baseState
      (reflectFootpoint baseState ![1, 1, 0])).2 =
      (distanceBearing baseState ![1, 1, 0]).2 := by
    rw [show (distanceBearing baseState
        (reflectFootpoint baseState ![1, 1, 0])).2 =
        -Real.arctan ((2 * 0 - 1 - 0) / (2 * 0 - 1 - 0)) * 180 / Real.pi
      from rfl]
    rw [show (distanceBearing baseState ![1, 1, 0]).2 =
        -Real.arctan ((1 - 0) / (1 - 0)) * 180 / Real.pi from rfl]
    norm_num
  refine ⟨he, ?_⟩
  rw [he]
  rintro (habs | habs) <;> linarith

/-- C6 (amended): for every camera state and world point with nonzero
horizontal offset in both axes, the reflection through the camera foot
point has the same distance and the same bearing (the bearing formula
`-arctan(dx/dy)` is invariant under joint negation of both offsets). -/
theorem distanceBearing_reflection (st : CamState) (p : Fin 3 → ℝ)
    (hx : p 0 - st.pos_x.getD 0 ≠ 0) (hy : p 1 - st.pos_y.getD 0 ≠ 0) :
    distanceBearing st (reflectFootpoint st p) = distanceBearing st p := by
  have h0 : reflectFootpoint st p 0 - st.pos_x.getD 0 =
      -(p 0 - st.pos_x.getD 0) := by
    rw [show reflectFootpoint st p 0 =
        2 * st.pos_x.getD 0 - p 0 from rfl]
    ring
  have h1 : reflectFootpoint st p 1 - st.pos_y.getD 0 =
      -(p 1 - st.pos_y.getD 0) := by
    rw [show reflectFootpoint st p 1 =
        2 * st.pos_y.getD 0 - p 1 from rfl]
    ring
  rw [Prod.ext_iff]
  constructor
  · show Real.sqrt ((reflectFootpoint st p 0 - st.pos_x.getD 0) ^ 2 +
        (reflectFootpoint st p 1 - st.pos_y.getD 0) ^ 2) =
        Real.sqrt ((p 0 - st.pos_x.getD 0) ^ 2 +
          (p 1 - st.pos_y.getD 0) ^ 2)
    rw [h0, h1]
    congr 1
    ring
  · show -Real.arctan ((reflectFootpoint st p 0 - st.pos_x.getD 0) /
        (reflectFootpoint st p 1 - st.pos_y.getD 0)) * 180 / Real.pi =
        -Real.arctan ((p 0 - st.pos_x.getD 0) /
          (p 1 - st.pos_y.getD 0)) * 180 / Real.pi
    rw [h0, h1, neg_div_neg_eq]

/-- Witness for the amended C6 at the point (1, 2, 0) with the camera foot
point at the origin. -/
theorem distanceBearing_reflection_witness :
    (![(1 : ℝ), 2, 0]) 0 - baseState.pos_x.getD 0 ≠ 0 ∧
    (![(1 : ℝ), 2, 0]) 1 - baseState.pos_y.getD 0 ≠ 0 ∧
    distanceBearing baseState
        (reflectFootpoint baseState ![1, 2, 0]) =
      distanceBearing baseState ![1, 2, 0] := by
  have hx : (![(1 : ℝ), 2, 0]) 0 - baseState.pos_x.getD 0 ≠ 0 := by
    rw [show (![(1 : ℝ), 2, 0]) 0 - baseState.pos_x.getD 0 = 1 - 0 from rfl]
    norm_num
  have hy : (![(1 : ℝ), 2, 0]) 1 - baseState.pos_y.getD 0 ≠ 0 := by
    rw [show (![(1 : ℝ), 2, 0]) 1 - baseState.pos_y.getD 0 = 2 - 0 from rfl]
    norm_num
  exact ⟨hx, hy, distanceBearing_reflection baseState ![1, 2, 0] hx hy⟩

/-- Method `transWorldToEarth`, per world point, state-passing (the method makes
a copy of its argument, reads only the class constant `R_earth` and writes
no attribute, so the state passes through unchanged): the effective radius
is the distance to the earth-center point `[0, 0, -R_earth]`, component 1
becomes `arccos(y / r_eff) * r_eff` and component 2 becomes `r_eff`. -/
noncomputable def transWorldToEarth (st : CamState) (x : Fin 3 → ℝ) :
    CamState × (Fin 3 → ℝ) :=
  let r_eff := Real.sqrt ((x 0 - 0) ^ 2 + (x 1 - 0) ^ 2 +
    (x 2 - -R_earth) ^ 2)
  (st, ![x 0, Real.arccos (x 1 / r_eff) * r_eff, r_eff])

/-- Method `transEarthToWorld`, per point, state-passing: `radius = z + R_earth`,
`alpha = y / radius`, component 1 becomes `tan(alpha) * radius` and
component 2 becomes `radius - radius * cos(alpha)`. -/
noncomputable def transEarthToWorld (st : CamState) (x : Fin 3 → ℝ) :
    CamState × (Fin 3 → ℝ) :=
  let radius := x 2 + R_earth
  let alpha := x 1 / radius
  (st, ![x 0, Real.tan alpha * radius, radius - radius * Real.cos alpha])

/-- C10: both earth transforms return a fresh value whose first component
equals the argument's first component, and leave the camera state (and,
the embedding being pure, the argument) unmodified. -/
theorem earth_transforms_frame (st : CamState) (x : Fin 3 → ℝ) :
    (transWorldToEarth st x).1 = st ∧ (transWorldToEarth st x).2 0 = x 0 ∧
    (transEarthToWorld st x).1 = st ∧ (transEarthToWorld st x).2 0 = x 0 :=
  ⟨rfl, rfl, rfl, rfl⟩

/-- C4 fails on the code: at the world point `(0, 0, 0)` (whose effective
radius is `R_earth > 0`), `transEarthToWorld(transWorldToEarth(p))`
returns `2 * R_earth` in component 1 instead of `0`: `transWorldToEarth`
stores the full effective radius in component 2, while `transEarthToWorld`
treats component 2 as a height above the surface and adds `R_earth`
again. -/
theorem earth_world_roundtrip_fails :
    (0 : ℝ) < R_earth ∧
    Real.sqrt ((((![(0 : ℝ), 0, 0]) 0) - 0) ^ 2 +
        (((![(0 : ℝ), 0, 0]) 1) - 0) ^ 2 +
        (((![(0 : ℝ), 0, 0]) 2) - -R_earth) ^ 2) = R_earth ∧
    (transEarthToWorld baseState
        (transWorldToEarth baseState ![0, 0, 0]).2).2 1 = 2 * R_earth ∧
    (transEarthToWorld baseState
        (transWorldToEarth baseState ![0, 0, 0]).2).2 ≠ ![0, 0, 0] := by
  have hR : (0 : ℝ) < R_earth := by norm_num [R_earth]
  have hr : Real.sqrt (((0 : ℝ) - 0) ^ 2 + ((0 : ℝ) - 0) ^ 2 +
      ((0 : ℝ) - -R_earth) ^ 2) = R_earth := by
    rw [show ((0 : ℝ) - 0) ^ 2 + ((0 : ℝ) - 0) ^ 2 +
        ((0 : ℝ) - -R_earth) ^ 2 = R_earth ^ 2 from by ring]
    exact Real.sqrt_sq hR.le
  have h1 : (transWorldToEarth baseState ![0, 0, 0]).2 =
      ![0, Real.pi / 2 * R_earth, R_earth] := by
    rw [show (transWorldToEarth baseState ![0, 0, 0]).2 =
        ![0, Real.arccos ((0 : ℝ) /
            Real.sqrt (((0 : ℝ) - 0) ^ 2 + ((0 : ℝ) - 0) ^ 2 +
              ((0 : ℝ) - -R_earth) ^ 2)) *
          Real.sqrt (((0 : ℝ) - 0) ^ 2 + ((0 : ℝ) - 0) ^ 2 +
            ((0 : ℝ) - -R_earth) ^ 2),
          Real.sqrt (((0 : ℝ) - 0) ^ 2 + ((0 : ℝ) - 0) ^ 2 +
            ((0 : ℝ) - -R_earth) ^ 2)] from rfl, hr]
    rw [zero_div, Real.arccos_zero]
  have h2 : (transEarthToWorld baseState
      ![0, Real.pi / 2 * R_earth, R_earth]).2 1 = 2 * R_earth := by
    rw [show (transEarthToWorld baseState
        ![0, Real.pi / 2 * R_earth, R_earth]).2 1 =
        Real.tan (Real.pi / 2 * R_earth / (R_earth + R_earth)) *
          (R_earth + R_earth) from rfl]
    rw [show Real.pi / 2 * R_earth / (R_earth + R_earth) = Real.pi / 4
      from by field_simp; ring]
    rw [Real.tan_pi_div_four]
    ring
  refine ⟨hR, ?_, ?_, ?_⟩
  · rw [show ((![(0 : ℝ), 0, 0]) 0) = 0 from rfl,
      show ((![(0 : ℝ), 0, 0]) 1) = 0 from rfl,
      show ((![(0 : ℝ), 0, 0]) 2) = 0 from rfl]
    exact hr
  · rw [h1]
    exact h2
  · rw [h1]
    intro habs
    have hc := congrFun habs 1
    rw [h2] at hc
    rw [show (![(0 : ℝ), 0, 0]) 1 = 0 from rfl] at hc
    nlinarith

/-- One back-projection of `transCamToEarth`: the fixed-dimension
back-projection with Z fixed to the current height estimate. -/
noncomputable def earthBackproj (Cm : Matrix (Fin 3) (Fin 4) ℝ)
    (x : Fin 2 → ℝ) (z : ℝ) : Fin 3 → ℝ :=
  transCamToWorldFixedDimension Cm x z 2

/-- The curvature-corrected next height estimate
`next_z = -(r / cos(arctan(y / r)) - r)`. -/
noncomputable def earthNextZ (r : ℝ) (v : Fin 3 → ℝ) : ℝ :=
  -(r / Real.cos (Real.arctan (v 1 / r)) - r)

/-- The per-point result `[new_point[0], r * alpha, H]` appended by
`transCamToEarth` with `alpha = arctan(y / r)`. -/
noncomputable def earthFinish (r H : ℝ) (v : Fin 3 → ℝ) : Fin 3 → ℝ :=
  ![v 0, r * Real.arctan (v 1 / r), H]

/-- Value of `np.linalg.norm` of the difference of two successive positions. -/
noncomputable def dist3 (a b : Fin 3 → ℝ) : ℝ :=
  Real.sqrt ((a 0 - b 0) ^ 2 + (a 1 - b 1) ^ 2 + (a 2 - b 2) ^ 2)

/-- The `np.linalg.solve` step of one round of `transCamToEarth`: numpy
raises `LinAlgError` on a singular reduced system, which aborts the whole
call (there is no `try` around the loop); on a non-singular system it
returns the unique solution, i.e. the back-projection `earthBackproj`. -/
noncomputable def earthBackprojE (Cm : Matrix (Fin 3) (Fin 4) ℝ)
    (x : Fin 2 → ℝ) (z : ℝ) : Except String (Fin 3 → ℝ) :=
  if det3 (reducedP Cm z 2) = 0 then Except.error singularMsg
  else Except.ok (earthBackproj Cm x z)

/-- The loop of `transCamToEarth` after its first round: `last` is the
previous `new_point`, `z` the pending `next_z`, `fuel` the remaining
iterations.  Returns the appended result together with the number of
back-projections performed inside, or propagates the solver's
singular-matrix error.  On exhausted fuel the `for`-`else` branch appends
the result from the last computed point. -/
noncomputable def camToEarthGo (Cm : Matrix (Fin 3) (Fin 4) ℝ)
    (x : Fin 2 → ℝ) (r H d : ℝ) :
    ℕ → (Fin 3 → ℝ) → ℝ → Except String ((Fin 3 → ℝ) × ℕ)
  | 0, last, _ => Except.ok (earthFinish r H last, 0)
  | fuel + 1, last, z =>
      match earthBackprojE Cm x z with
      | Except.error e => Except.error e
      | Except.ok new =>
          if dist3 new last < d then Except.ok (earthFinish r H new, 1)
          else Except.map (fun res => (res.1, res.2 + 1))
            (camToEarthGo Cm x r H d fuel new (earthNextZ r new))

/-- Method `transCamToEarth`, per image point: `H` defaults to `0`,
`r = R_earth + H`; the first round back-projects at `z = H` (no
convergence test, `last_point` still being `None`), then the loop runs
with the remaining `max_iter - 1` iterations.  Returns the appended
result and the number of rounds performed, or propagates the solver's
error from any round.  (With `max_iter = 0` the Python code would raise
on the uninitialised `new_point`; the embedding returns a junk value
there and the theorems assume `max_iter >= 1`.) -/
noncomputable def transCamToEarthPoint (Cm : Matrix (Fin 3) (Fin 4) ℝ)
    (x : Fin 2 → ℝ) (H : Option ℝ) (max_iter : ℕ) (max_distance : ℝ) :
    Except String ((Fin 3 → ℝ) × ℕ) :=
  let H0 := H.getD 0
  let r := R_earth + H0
  match max_iter with
  | 0 => Except.ok (![0, 0, 0], 0)
  | m + 1 =>
      match earthBackprojE Cm x H0 with
      | Except.error e => Except.error e
      | Except.ok new =>
          Except.map (fun res => (res.1, res.2 + 1))
            (camToEarthGo Cm x r H0 max_distance m new (earthNextZ r new))

/-- The mathematical fixed-point iteration sequence of `transCamToEarth`:
`seq 0` is the flat back-projection at `z = H`, `seq (k+1)` re-back-projects
at the curvature-corrected height of `seq k`. -/
noncomputable def camToEarthSeq (Cm : Matrix (Fin 3) (Fin 4) ℝ)
    (x : Fin 2 → ℝ) (r H0 : ℝ) : ℕ → (Fin 3 → ℝ)
  | 0 => earthBackproj Cm x H0
  | k + 1 => earthBackproj Cm x (earthNextZ r (camToEarthSeq Cm x r H0 k))

/-- The sequence of fixed heights the iteration solves at: round `k + 1`
of `transCamToEarth` back-projects at `camToEarthZ k`. -/
noncomputable def camToEarthZ (Cm : Matrix (Fin 3) (Fin 4) ℝ)
    (x : Fin 2 → ℝ) (r H0 : ℝ) : ℕ → ℝ
  | 0 => H0
  | k + 1 => earthNextZ r (camToEarthSeq Cm x r H0 k)

/-- Invariant of the loop of `transCamToEarth`, by induction on the fuel:
starting a round after `seq j` was computed, when every reduced system
encountered within the fuel is non-singular the loop performs some
`n <= fuel` further rounds, returns the result built from `seq (j + n)`,
never stops while the convergence test fails, and stops with fuel to
spare only on a successful convergence test. -/
theorem camToEarthGo_spec (Cm : Matrix (Fin 3) (Fin 4) ℝ) (x : Fin 2 → ℝ)
    (r H0 d : ℝ) : ∀ fuel j,
    (∀ i, 1 ≤ i → i ≤ fuel →
      det3 (reducedP Cm (camToEarthZ Cm x r H0 (j + i)) 2) ≠ 0) →
    ∃ n : ℕ,
    camToEarthGo Cm x r H0 d fuel (camToEarthSeq Cm x r H0 j)
        (earthNextZ r (camToEarthSeq Cm x r H0 j)) =
      Except.ok (earthFinish r H0 (camToEarthSeq Cm x r H0 (j + n)), n) ∧
    n ≤ fuel ∧
    (∀ i, 1 ≤ i → i < n →
      ¬ dist3 (camToEarthSeq Cm x r H0 (j + i))
          (camToEarthSeq Cm x r H0 (j + i - 1)) < d) ∧
    (n < fuel → 1 ≤ n ∧
      dist3 (camToEarthSeq Cm x r H0 (j + n))
        (camToEarthSeq Cm x r H0 (j + n - 1)) < d) := by
  intro fuel
  induction fuel with
  | zero =>
      intro j hz
      refine ⟨0, ?_, le_refl 0, ?_, ?_⟩
      · simp [camToEarthGo]
      · intro i h1 h0
        omega
      · intro h
        omega
  | succ fuel ih =>
      intro j hz
      have hz1 : det3 (reducedP Cm
          (earthNextZ r (camToEarthSeq Cm x r H0 j)) 2) ≠ 0 := by
        have := hz 1 (le_refl 1) (by omega)
        rwa [show camToEarthZ Cm x r H0 (j + 1) =
          earthNextZ r (camToEarthSeq Cm x r H0 j) from rfl] at this
      have hok : earthBackprojE Cm x
          (earthNextZ r (camToEarthSeq Cm x r H0 j)) =
          Except.ok (camToEarthSeq Cm x r H0 (j + 1)) := by
        simp only [earthBackprojE]
        rw [if_neg hz1]
        rfl
      have hred : camToEarthGo Cm x r H0 d (fuel + 1)
          (camToEarthSeq Cm x r H0 j)
          (earthNextZ r (camToEarthSeq Cm x r H0 j)) =
          (if dist3 (camToEarthSeq Cm x r H0 (j + 1))
              (camToEarthSeq Cm x r H0 j) < d then
            Except.ok
              (earthFinish r H0 (camToEarthSeq Cm x r H0 (j + 1)), 1)
          else Except.map (fun res => (res.1, res.2 + 1))
            (camToEarthGo Cm x r H0 d fuel (camToEarthSeq Cm x r H0 (j + 1))
              (earthNextZ r (camToEarthSeq Cm x r H0 (j + 1))))) := by
        simp only [camToEarthGo]
        rw [hok]
      by_cases hc : dist3 (camToEarthSeq Cm x r H0 (j + 1))
          (camToEarthSeq Cm x r H0 j) < d
      · refine ⟨1, ?_, by omega, ?_, ?_⟩
        · rw [hred, if_pos hc]
        · intro i h1 h0
          omega
        · intro h
          refine ⟨le_refl 1, ?_⟩
          rw [show j + 1 - 1 = j from rfl]
          exact hc
      · have hz' : ∀ i, 1 ≤ i → i ≤ fuel →
            det3 (reducedP Cm (camToEarthZ Cm x r H0 (j + 1 + i)) 2) ≠ 0 := by
          intro i h1 h2
          have := hz (i + 1) (by omega) (by omega)
          rwa [show j + (i + 1) = j + 1 + i from by omega] at this
        obtain ⟨n', hgo, hle, hni, hstop⟩ := ih (j + 1) hz'
        refine ⟨n' + 1, ?_, by omega, ?_, ?_⟩
        · rw [hred, if_neg hc, hgo,
            show j + 1 + n' = j + (n' + 1) from by omega]
          rfl
        · intro i h1 hi
          rcases Nat.lt_or_ge i 2 with h2 | h2
          · have hi1 : i = 1 := by omega
            subst hi1
            rw [show j + 1 - 1 = j from rfl]
            exact hc
          · have := hni (i - 1) (by omega) (by omega)
            rw [show j + 1 + (i - 1) = j + i from by omega] at this
            exact this
        · intro h
          obtain ⟨hn1, hd'⟩ := hstop (by omega)
          refine ⟨by omega, ?_⟩
          rw [show j + (n' + 1) = j + 1 + n' from by omega]
          exact hd'

/-- C8 (amended): for every input image point and iteration budget of at
least one, provided each reduced linear system encountered within the
budget is non-singular, the per-point iteration of `transCamToEarth`
performs between 1 and `max_iter` rounds and returns, without error, the
result built from the last computed point — also when the budget is
exhausted without convergence; it never stops while two successive
positions are at distance `max_distance` or more, and stops before
exhausting the budget only when two successive positions got closer than
`max_distance`.  (On a singular reduced system the solver's `LinAlgError`
propagates instead and aborts the call, see the counterexample.) -/
theorem transCamToEarth_iteration (Cm : Matrix (Fin 3) (Fin 4) ℝ)
    (x : Fin 2 → ℝ) (H : Option ℝ) (m : ℕ) (d : ℝ) (hm : 1 ≤ m)
    (hz : ∀ i, i < m → det3 (reducedP Cm
      (camToEarthZ Cm x (R_earth + H.getD 0) (H.getD 0) i) 2) ≠ 0) :
    ∃ n : ℕ, 1 ≤ n ∧ n ≤ m ∧
    transCamToEarthPoint Cm x H m d =
      Except.ok (earthFinish (R_earth + H.getD 0) (H.getD 0)
        (camToEarthSeq Cm x (R_earth + H.getD 0) (H.getD 0) (n - 1)), n) ∧
    (∀ k, 2 ≤ k → k < n →
      ¬ dist3 (camToEarthSeq Cm x (R_earth + H.getD 0) (H.getD 0) (k - 1))
          (camToEarthSeq Cm x (R_earth + H.getD 0) (H.getD 0) (k - 2)) <
        d) ∧
    (n < m →
      dist3 (camToEarthSeq Cm x (R_earth + H.getD 0) (H.getD 0) (n - 1))
        (camToEarthSeq Cm x (R_earth + H.getD 0) (H.getD 0) (n - 2)) <
      d) := by
  obtain ⟨m0, rfl⟩ : ∃ m0, m = m0 + 1 :=
    ⟨m - 1, by omega⟩
  have hz0 : det3 (reducedP Cm (H.getD 0) 2) ≠ 0 := by
    have := hz 0 (by omega)
    rwa [show camToEarthZ Cm x (R_earth + H.getD 0) (H.getD 0) 0 =
      H.getD 0 from rfl] at this
  have hok0 : earthBackprojE Cm x (H.getD 0) =
      Except.ok (camToEarthSeq Cm x (R_earth + H.getD 0) (H.getD 0) 0) := by
    simp only [earthBackprojE]
    rw [if_neg hz0]
    rfl
  have hz' : ∀ i, 1 ≤ i → i ≤ m0 → det3 (reducedP Cm
      (camToEarthZ Cm x (R_earth + H.getD 0) (H.getD 0) (0 + i)) 2) ≠ 0 := by
    intro i h1 h2
    have := hz i (by omega)
    rwa [show (0 : ℕ) + i = i from by omega]
  obtain ⟨n', hgo, hle, hni, hstop⟩ :=
    camToEarthGo_spec Cm x (R_earth + H.getD 0) (H.getD 0) d m0 0 hz'
  have hred0 : transCamToEarthPoint Cm x H (m0 + 1) d =
      Except.map (fun res => (res.1, res.2 + 1))
        (camToEarthGo Cm x (R_earth + H.getD 0) (H.getD 0) d m0
          (camToEarthSeq Cm x (R_earth + H.getD 0) (H.getD 0) 0)
          (earthNextZ (R_earth + H.getD 0)
            (camToEarthSeq Cm x (R_earth + H.getD 0) (H.getD 0) 0))) := by
    simp only [transCamToEarthPoint]
    rw [hok0]
  refine ⟨n' + 1, by omega, by omega, ?_, ?_, ?_⟩
  · rw [hred0, hgo, show (0 : ℕ) + n' = n' + 1 - 1 from by omega]
    rfl
  · intro k h2 hk
    have := hni (k - 1) (by omega) (by omega)
    rw [show (0 : ℕ) + (k - 1) = k - 1 from by omega] at this
    rw [show k - 1 - 1 = k - 2 from by omega] at this
    exact this
  · intro h
    obtain ⟨hn1, hd'⟩ := hstop (by omega)
    rw [show (0 : ℕ) + n' = n' + 1 - 1 from by omega] at hd'
    rw [show n' + 1 - 1 - 1 = n' + 1 - 2 from by omega] at hd'
    exact hd'

/-- Helper: when the very first reduced system is singular,
`transCamToEarth` aborts with the solver's error. -/
theorem transCamToEarth_aborts (Cm : Matrix (Fin 3) (Fin 4) ℝ)
    (x : Fin 2 → ℝ) (H : Option ℝ) (m : ℕ) (d : ℝ) (hm : 1 ≤ m)
    (h0 : det3 (reducedP Cm (H.getD 0) 2) = 0) :
    transCamToEarthPoint Cm x H m d = Except.error singularMsg := by
  obtain ⟨m0, rfl⟩ : ∃ m0, m = m0 + 1 :=
    ⟨m - 1, by omega⟩
  have herr : earthBackprojE Cm x (H.getD 0) = Except.error singularMsg := by
    simp only [earthBackprojE]
    rw [if_pos h0]
  simp only [transCamToEarthPoint]
  rw [herr]

/-- Counterexample to C8 as stated: with the diagonal camera matrix
`witnessC` and the default reference height `0`, the very first reduced
system of `transCamToEarth` is singular, so `np.linalg.solve` raises
`LinAlgError` and the call aborts with an error instead of returning a
point built from the iteration. -/
theorem transCamToEarth_singular_raises :
    det3 (reducedP witnessC ((none : Option ℝ).getD 0) 2) = 0 ∧
    transCamToEarthPoint witnessC ![0, 0] none 1 1 =
      Except.error singularMsg := by
  have hdet : det3 (reducedP witnessC ((none : Option ℝ).getD 0) 2) = 0 := by
    simp only [det3, reducedP_z_zero, reducedP_z_one, reducedP_z_two,
      Option.getD_none]
    rw [show witnessC 0 0 = 1 from rfl, show witnessC 0 1 = 0 from rfl,
      show witnessC 0 2 = 0 from rfl, show witnessC 0 3 = 0 from rfl,
      show witnessC 1 0 = 0 from rfl, show witnessC 1 1 = 1 from rfl,
      show witnessC 1 2 = 0 from rfl, show witnessC 1 3 = 0 from rfl,
      show witnessC 2 0 = 0 from rfl, show witnessC 2 1 = 0 from rfl,
      show witnessC 2 2 = 1 from rfl, show witnessC 2 3 = 0 from rfl]
    norm_num
  exact ⟨hdet,
    transCamToEarth_aborts witnessC ![0, 0] none 1 1 (le_refl 1) hdet⟩

/-- Concrete camera matrix for the C8 witness: its z-reduced system at
the initial height `0` is the identity. -/
def earthWitnessC : Matrix (Fin 3) (Fin 4) ℝ :=
  Matrix.of ![![1, 0, 0, 0], ![0, 1, 0, 0], ![0, 0, 1, 1]]

/-- Witness for the amended C8: with a budget of one iteration and a
camera whose single encountered reduced system is the identity, both
hypotheses hold and the iteration performs exactly one round. -/
theorem transCamToEarth_iteration_witness :
    (1 : ℕ) ≤ 1 ∧
    (∀ i, i < 1 → det3 (reducedP earthWitnessC
      (camToEarthZ earthWitnessC ![0, 0]
        (R_earth + (none : Option ℝ).getD 0) ((none : Option ℝ).getD 0) i)
      2) ≠ 0) ∧
    (∃ n : ℕ, 1 ≤ n ∧ n ≤ 1 ∧
      transCamToEarthPoint earthWitnessC ![0, 0] none 1 1 =
        Except.ok (earthFinish (R_earth + (none : Option ℝ).getD 0)
          ((none : Option ℝ).getD 0)
          (camToEarthSeq earthWitnessC ![0, 0]
            (R_earth + (none : Option ℝ).getD 0)
            ((none : Option ℝ).getD 0) (n - 1)), n) ∧
      (∀ k, 2 ≤ k → k < n →
        ¬ dist3 (camToEarthSeq earthWitnessC ![0, 0]
            (R_earth + (none : Option ℝ).getD 0)
            ((none : Option ℝ).getD 0) (k - 1))
          (camToEarthSeq earthWitnessC ![0, 0]
            (R_earth + (none : Option ℝ).getD 0)
            ((none : Option ℝ).getD 0) (k - 2)) < 1) ∧
      (n < 1 →
        dist3 (camToEarthSeq earthWitnessC ![0, 0]
            (R_earth + (none : Option ℝ).getD 0)
            ((none : Option ℝ).getD 0) (n - 1))
          (camToEarthSeq earthWitnessC ![0, 0]
            (R_earth + (none : Option ℝ).getD 0)
            ((none : Option ℝ).getD 0) (n - 2)) < 1)) := by
  have hz : ∀ i, i < 1 → det3 (reducedP earthWitnessC
      (camToEarthZ earthWitnessC ![0, 0]
        (R_earth + (none : Option ℝ).getD 0) ((none : Option ℝ).getD 0) i)
      2) ≠ 0 := by
    intro i hi
    have hi0 : i = 0 := by omega
    subst hi0
    rw [show camToEarthZ earthWitnessC ![0, 0]
        (R_earth + (none : Option ℝ).getD 0) ((none : Option ℝ).getD 0) 0 =
        (none : Option ℝ).getD 0 from rfl]
    simp only [det3, reducedP_z_zero, reducedP_z_one, reducedP_z_two,
      Option.getD_none]
    rw [show earthWitnessC 0 0 = 1 from rfl,
      show earthWitnessC 0 1 = 0 from rfl,
      show earthWitnessC 0 2 = 0 from rfl,
      show earthWitnessC 0 3 = 0 from rfl,
      show earthWitnessC 1 0 = 0 from rfl,
      show earthWitnessC 1 1 = 1 from rfl,
      show earthWitnessC 1 2 = 0 from rfl,
      show earthWitnessC 1 3 = 0 from rfl,
      show earthWitnessC 2 0 = 0 from rfl,
      show earthWitnessC 2 1 = 0 from rfl,
      show earthWitnessC 2 2 = 1 from rfl,
      show earthWitnessC 2 3 = 1 from rfl]
    norm_num
  exact ⟨le_refl 1, hz,
    transCamToEarth_iteration earthWitnessC ![0, 0] none 1 1 (le_refl 1) hz⟩

end CameraTransform
